import Mathlib

/-
Shallow embedding of src/histmatch.rs (histogram matching of RGB images).

Conventions of the embedding:
* `u8` and `u32` samples and indices become `ℕ`; where the code can wrap
  (the `u32` subtraction inside `mapping`) the wrap is made explicit with
  `% 2 ^ 32`.
* `f32` is modelled by `ℚ`; the histogram counts and the small concrete
  inputs used below keep every intermediate value exactly representable.
  Division by zero (the empty-image case, `NaN` in `f32`) is `0` in `ℚ`.
* The `BTreeMap<u32, u32>` is modelled by a lookup function `ℕ → Option ℕ`
  built by folding inserts in program order, plus ordered range queries
  computed over the set of inserted keys (the entries of the reference
  array), which is exactly the key set of the finished map.
-/

set_option maxRecDepth 1000000
set_option maxHeartbeats 1000000

namespace Histmatch

/-- `ImageChannels` (histmatch.rs lines 4-10): three per-channel sample
vectors plus dimensions.  The `From<DynamicImage>` impl guarantees each
vector has length `width * height` and entries below 256. -/
structure ImageChannels where
  r : List ℕ
  g : List ℕ
  b : List ℕ
  width : ℕ
  height : ℕ

/-- `ImageChannels::get_channel` (lines 34-41).  The `_` arm models the
`panic!` branch; it is unreachable from every call site, which pass only
the literals `'r'`, `'g'`, `'b'`. -/
def ImageChannels.get_channel (img : ImageChannels) (c : Char) : List ℕ :=
  if c = 'r' then img.r
  else if c = 'g' then img.g
  else if c = 'b' then img.b
  else []

/-- The count accumulated into bin `v` by the histogram loop of
`ChannelsHistogram::from` (lines 57-63): the number of flat pixel indices
`k < n` whose sample equals `v`. -/
def cnt (c : List ℕ) (n v : ℕ) : ℕ :=
  ((List.range n).filter fun k => c.getD k 0 = v).length

/-- Cumulative count: pixels with value `≤ i` (among the first `n`). -/
def cntLE (c : List ℕ) (n i : ℕ) : ℕ :=
  ((List.range (i + 1)).map (cnt c n)).sum

/-- The histogram built by `ChannelsHistogram::from` (lines 57-63): for
every flat pixel index `k < n` (with `n = width*height`; the code's
`j + i*width` enumerates exactly `0..n`), bump the bin of the sample at
`k`.  Bin `v` therefore holds `cnt c n v`; counts are `f32` in the code,
here `ℚ`. -/
def histN (c : List ℕ) (n : ℕ) : List ℚ :=
  (List.range 256).map fun v => (cnt c n v : ℚ)

/-- `ChannelsHistogram` (lines 44-48). -/
structure ChannelsHistogram where
  hist : List ℚ × List ℚ × List ℚ
  width : ℕ
  height : ℕ

/-- `ChannelsHistogram::from` (lines 50-66).  NOTE: the source builds
`histogram_r`, `histogram_g`, `histogram_b` and then stores the tuple as
`(histogram_r, histogram_b, histogram_g)` — red, BLUE, GREEN, in that
order.  The embedding reproduces that tuple order exactly. -/
def ChannelsHistogram.ofChannels (img : ImageChannels) : ChannelsHistogram :=
  { hist := (histN img.r (img.width * img.height),
             histN img.b (img.width * img.height),
             histN img.g (img.width * img.height)),
    width := img.width,
    height := img.height }

/-- `ChannelsHistogram::get_channel` (lines 68-77): `'r' => hist.0`,
`'g' => hist.1`, `'b' => hist.2`.  Combined with the tuple order stored by
`ofChannels`, `'g'` yields the blue histogram and `'b'` the green one.
The `_` arm models the `panic!` branch (unreachable from call sites). -/
def ChannelsHistogram.get_channel (h : ChannelsHistogram) (c : Char) : List ℚ :=
  if c = 'r' then h.hist.1
  else if c = 'g' then h.hist.2.1
  else if c = 'b' then h.hist.2.2
  else List.replicate 256 0

/-- `equalize` (lines 79-86): `new_pixel_level[i] = ceil(img[i] * 255) as u32`
for `i < 256`.  `Int.toNat` models the saturating `as u32` cast on the
(always non-negative here) ceiling.  The code indexes `img[i]` directly;
every call site passes a 256-entry vector, so `getD _ 0` agrees with it. -/
def equalize (img : List ℚ) : List ℕ :=
  (List.range 256).map fun i => (Int.ceil (img.getD i 0 * 255)).toNat

/-- Loop body of `cumwantsome` (lines 91-93): running inclusive prefix sum
continuing from accumulator `acc`. -/
def cumGo (acc : ℚ) : List ℚ → List ℚ
  | [] => []
  | y :: ys => (acc + y) :: cumGo (acc + y) ys

/-- `cumwantsome` (lines 88-95): inclusive prefix sums, seeded with
`arr[0]`.  The code indexes `arr[0]` unconditionally (panics on an empty
slice); every call site passes 256 entries, so the `[]` arm is
unreachable. -/
def cumwantsome (arr : List ℚ) : List ℚ :=
  match arr with
  | [] => []
  | x :: xs => x :: cumGo x xs

/-- `cdf` (lines 97-106): prefix sums, then divide every entry by the last
prefix sum (the total pixel count).  There is no empty-image check: on an
all-zero histogram the divisor is `0` (`NaN` in `f32`, `0` in this `ℚ`
model) and the function still returns a full 256-entry vector. -/
def cdf (img : List ℚ) : List ℚ :=
  let c := cumwantsome img
  let number := c.getD (c.length - 1) 0
  c.map fun x => x / number

/-- One `BTreeMap::insert`: later insertions of the same key overwrite. -/
def btreeInsert (m : ℕ → Option ℕ) (k v : ℕ) : ℕ → Option ℕ :=
  fun x => if x = k then some v else m x

/-- The insertion loop of `mapping` (lines 110-113): for `(n, i)` in
`ref_img.iter().enumerate()`, insert value `i` as key mapping to index `n`;
`n` is the running enumeration counter. -/
def insertAll (m : ℕ → Option ℕ) (n : ℕ) : List ℕ → (ℕ → Option ℕ)
  | [] => m
  | i :: rest => insertAll (btreeInsert m i n) (n + 1) rest

/-- The finished `lookup : BTreeMap<u32, u32>` of `mapping`, as a lookup
function.  Its key set is exactly the set of entries of `ref`. -/
def lookupMap (ref : List ℕ) : ℕ → Option ℕ :=
  insertAll (fun _ => none) 0 ref

/-- Smallest key of the finished map that is `≥ key` (the keys are the
entries of `ref`). -/
def minKeyGE (ref : List ℕ) (key : ℕ) : Option ℕ :=
  (ref.filter fun k => key ≤ k).foldr
    (fun x acc => match acc with
      | none => some x
      | some m => some (min x m)) none

/-- Largest key of the finished map that is `< key`. -/
def maxKeyLT (ref : List ℕ) (key : ℕ) : Option ℕ :=
  (ref.filter fun k => k < key).foldr
    (fun x acc => match acc with
      | none => some x
      | some m => some (max x m)) none

/-- `lookup.range(key..).next()` (line 116): the least map entry with key
`≥ key`, as a `(key, value)` pair.  The inner `none` arm is unreachable:
the minimum is taken over entries of `ref`, which are all map keys. -/
def rangeFromNext (ref : List ℕ) (key : ℕ) : Option (ℕ × ℕ) :=
  match minKeyGE ref key with
  | none => none
  | some k =>
    match lookupMap ref k with
    | none => none
    | some v => some (k, v)

/-- `lookup.range(..key).rev().next()` (line 117): the greatest map entry
with key `< key`. -/
def rangeToLast (ref : List ℕ) (key : ℕ) : Option (ℕ × ℕ) :=
  match maxKeyLT ref key with
  | none => none
  | some k =>
    match lookupMap ref k with
    | none => none
    | some v => some (k, v)

/-- Wrapping `u32` subtraction, the release-mode semantics of `upper - key`
and `lower - key` on line 121 (a debug build panics on the same inputs). -/
def u32sub (a b : ℕ) : ℕ :=
  (2 ^ 32 + a - b) % 2 ^ 32

/-- `let upper = *upper.unwrap_or((&0, &255)).1;` (line 119): the VALUE
(reference index) of the upper entry; when no entry exists the dummy pair
`(&0, &255)` contributes its value `255`. -/
def upperCandidate (ref : List ℕ) (key : ℕ) : ℕ :=
  ((rangeFromNext ref key).getD (0, 255)).2

/-- `let lower = *lower.unwrap_or((&0, &255)).1;` (line 120). -/
def lowerCandidate (ref : List ℕ) (key : ℕ) : ℕ :=
  ((rangeToLast ref key).getD (0, 255)).2

/-- Lines 115-127 of `mapping`, for one source entry `key`: compare
`upper - key` and `lower - key` in wrapping `u32` arithmetic (the code
compares the candidate INDICES against the key, not the candidate keys),
prefer `upper` on `≤`, and truncate the chosen index with `as u8`. -/
def mappingEntry (ref : List ℕ) (key : ℕ) : ℕ :=
  let upper := upperCandidate ref key
  let lower := lowerCandidate ref key
  (if u32sub upper key ≤ u32sub lower key then upper else lower) % 256

/-- `mapping` (lines 108-129): `mapped[i] = ` the entry chosen for
`key = src_img[i]`.  Every call site passes a 256-entry `src_img`, so the
`[0; 256]` output array is exactly this 256-entry map. -/
def mapping (src ref : List ℕ) : List ℕ :=
  (List.range 256).map fun i => mappingEntry ref (src.getD i 0)

/-- `apply` (lines 130-137): `result[i] = hist[img[i]]`.  The lookup table
always has 256 entries and samples are below 256, so `getD _ 0` agrees
with the panicking index. -/
def apply (hist img : List ℕ) : List ℕ :=
  img.map fun s => hist.getD s 0

/-- `combine` (lines 139-150): interleave the three rewritten channels;
`j + i*width` enumerates exactly the flat indices `0..height*width`. -/
def combine (r g b : List ℕ) (height width : ℕ) : List (ℕ × ℕ × ℕ) :=
  (List.range (height * width)).map fun k => (r.getD k 0, g.getD k 0, b.getD k 0)

/-- The pixel-level core of `match_histogram` (lines 152-190), between
decoding and encoding (file I/O is outside the model): per channel tag,
equalized CDFs of both images, `mapping`, `apply`; returns the three
rewritten channels `(r, g, b)`. -/
def match_core (src ref : ImageChannels) : List ℕ × List ℕ × List ℕ :=
  let ref_histo := ChannelsHistogram.ofChannels ref
  let src_histo := ChannelsHistogram.ofChannels src
  let ref_cdf_r := equalize (cdf (ref_histo.get_channel 'r'))
  let ref_cdf_g := equalize (cdf (ref_histo.get_channel 'g'))
  let ref_cdf_b := equalize (cdf (ref_histo.get_channel 'b'))
  let src_cdf_r := equalize (cdf (src_histo.get_channel 'r'))
  let src_cdf_g := equalize (cdf (src_histo.get_channel 'g'))
  let src_cdf_b := equalize (cdf (src_histo.get_channel 'b'))
  let mapped_r := mapping src_cdf_r ref_cdf_r
  let mapped_g := mapping src_cdf_g ref_cdf_g
  let mapped_b := mapping src_cdf_b ref_cdf_b
  (apply mapped_r (src.get_channel 'r'),
   apply mapped_g (src.get_channel 'g'),
   apply mapped_b (src.get_channel 'b'))

/-- Tail of `match_histogram` (lines 184-186): the combined RGB buffer that
gets written out. -/
def match_histogram (src ref : ImageChannels) : List (ℕ × ℕ × ℕ) :=
  let out := match_core src ref
  combine out.1 out.2.1 out.2.2 src.height src.width

/-! ### Concrete images and arrays used to settle the claims -/

/-- 1×1 source image, RGB pixel (0, 10, 20). -/
def srcA : ImageChannels := ⟨[0], [10], [20], 1, 1⟩

/-- 1×1 reference image, RGB pixel (0, 77, 200). -/
def refA : ImageChannels := ⟨[0], [77], [200], 1, 1⟩

/-- 2×1 source image, pixels [(0,0,0), (255,255,255)]. -/
def src2 : ImageChannels := ⟨[0, 255], [0, 255], [0, 255], 2, 1⟩

/-- 2×1 reference image, pixels [(0,0,0), (0,0,0)]. -/
def ref2 : ImageChannels := ⟨[0, 0], [0, 0], [0, 0], 2, 1⟩

/-- Quantized CDF of a 2×1 channel with samples [0, 1]; evaluates to
`[128, 255, 255, …, 255]`. -/
def q7 : List ℕ := equalize (cdf (histN [0, 1] 2))

/-- A 256-entry quantized source CDF, constantly 150. -/
def src3 : List ℕ := List.replicate 256 150

/-- A 256-entry quantized reference CDF `[100, 200, 255, …, 255]`. -/
def ref3 : List ℕ := 100 :: 200 :: List.replicate 254 255

/-- A 256-entry quantized reference CDF `[0, 1, 1, …, 1]`: its key `0` is
mapped to index `0`, and it has no key `≥ 2`. -/
def ref5 : List ℕ := 0 :: List.replicate 255 1

/-! ### Basic structure lemmas -/

lemma histN_length (c : List ℕ) (n : ℕ) : (histN c n).length = 256 := by
  simp [histN]

lemma cumGo_length (acc : ℚ) (l : List ℚ) : (cumGo acc l).length = l.length := by
  induction l generalizing acc with
  | nil => rfl
  | cons y ys ih => simp [cumGo, ih]

lemma cumwantsome_length (l : List ℚ) : (cumwantsome l).length = l.length := by
  cases l with
  | nil => rfl
  | cons x xs => simp [cumwantsome, cumGo_length]

/-- Each entry of the running prefix sum continued from `acc` is `acc` plus
the sum of the corresponding prefix. -/
lemma cumGo_getD (l : List ℚ) : ∀ (acc : ℚ) (i : ℕ), i < l.length →
    (cumGo acc l).getD i 0 = acc + (l.take (i + 1)).sum := by
  induction l with
  | nil => intro acc i h; simp at h
  | cons y ys ih =>
    intro acc i h
    cases i with
    | zero => simp [cumGo]
    | succ j =>
      have hj : j < ys.length := by simpa using h
      simp only [cumGo, List.getD_cons_succ, ih (acc + y) j hj, List.take_succ_cons,
        List.sum_cons]
      ring

/-- `cumwantsome` computes inclusive prefix sums. -/
lemma cumwantsome_getD (l : List ℚ) (i : ℕ) (h : i < l.length) :
    (cumwantsome l).getD i 0 = (l.take (i + 1)).sum := by
  cases l with
  | nil => simp at h
  | cons x xs =>
    cases i with
    | zero => simp [cumwantsome]
    | succ j =>
      have hj : j < xs.length := by simpa using h
      simp only [cumwantsome, List.getD_cons_succ]
      rw [cumGo_getD xs x j hj, List.take_succ_cons, List.sum_cons]

/-- The prefix of the histogram sums to the cumulative count. -/
lemma histN_take_sum (c : List ℕ) (n i : ℕ) (hi : i < 256) :
    ((histN c n).take (i + 1)).sum = (cntLE c n i : ℚ) := by
  have h1 : (histN c n).take (i + 1)
      = (List.range (i + 1)).map fun v => (cnt c n v : ℚ) := by
    rw [histN, ← List.map_take, List.take_range, Nat.min_eq_left (by omega)]
  rw [h1, cntLE, Nat.cast_list_sum, List.map_map]
  rfl

lemma cdf_length (img : List ℚ) : (cdf img).length = img.length := by
  simp [cdf, cumwantsome_length]

/-- Every entry of `cdf (histN c n)` is the cumulative count divided by the
total (the last cumulative count). -/
lemma cdf_histN_getD (c : List ℕ) (n i : ℕ) (hi : i < 256) :
    (cdf (histN c n)).getD i 0 = (cntLE c n i : ℚ) / (cntLE c n 255 : ℚ) := by
  have hlen : (cumwantsome (histN c n)).length = 256 := by
    rw [cumwantsome_length, histN_length]
  have hi' : i < (cumwantsome (histN c n)).length := by rw [hlen]; exact hi
  have h255 : (cumwantsome (histN c n)).getD ((cumwantsome (histN c n)).length - 1) 0
      = (cntLE c n 255 : ℚ) := by
    rw [hlen]
    show (cumwantsome (histN c n)).getD 255 0 = (cntLE c n 255 : ℚ)
    rw [cumwantsome_getD _ _ (by rw [histN_length]; omega), histN_take_sum c n 255 (by omega)]
  simp only [cdf]
  rw [List.getD_eq_getElem _ _ (by rw [List.length_map]; exact hi'), List.getElem_map,
    ← List.getD_eq_getElem _ 0 hi', h255,
    cumwantsome_getD _ _ (by rw [histN_length]; exact hi), histN_take_sum c n i hi]

lemma getD_map_range {α : Type} (f : ℕ → α) (d : α) (i n : ℕ) (h : i < n) :
    ((List.range n).map f).getD i d = f i := by
  rw [List.getD_eq_getElem _ _ (by simpa using h), List.getElem_map, List.getElem_range]

/-- `(⌈(a/b) * 255⌉) as u32` is the `ℕ` ceiling division `(255*a + b - 1)/b`.
Both sides are `0` when `b = 0` (in `ℚ`, division by zero is zero, as it is
in `ℕ`). -/
lemma ceil_mul_255_toNat (a b : ℕ) :
    (Int.ceil ((a : ℚ) / (b : ℚ) * 255)).toNat = (255 * a + b - 1) / b := by
  rcases Nat.eq_zero_or_pos b with hb | hb
  · subst hb; simp
  · have hbq : (0 : ℚ) < (b : ℚ) := by exact_mod_cast hb
    have hx : (a : ℚ) / (b : ℚ) * 255 = ((255 * a : ℕ) : ℚ) / (b : ℚ) := by
      push_cast; ring
    rw [hx]
    set q : ℕ := (255 * a + b - 1) / b with hq
    have h1 : q * b ≤ 255 * a + b - 1 := by rw [hq]; exact Nat.div_mul_le_self _ _
    have h2 : 255 * a + b - 1 < q * b + b := by
      have h2' : 255 * a + b - 1 < (q + 1) * b :=
        (Nat.div_lt_iff_lt_mul hb).mp (by omega)
      rw [Nat.add_mul, Nat.one_mul] at h2'
      exact h2'
    have hle : 255 * a ≤ q * b := by omega
    have hlt : q * b < 255 * a + b := by omega
    have hceil : Int.ceil (((255 * a : ℕ) : ℚ) / (b : ℚ)) = (q : ℤ) := by
      rw [Int.ceil_eq_iff]
      constructor
      · rw [lt_div_iff₀ hbq]
        have hc : (q : ℚ) * b < ((255 * a : ℕ) : ℚ) + b := by exact_mod_cast hlt
        push_cast at hc ⊢
        linarith
      · rw [div_le_iff₀ hbq]
        have hc : ((255 * a : ℕ) : ℚ) ≤ (q : ℚ) * b := by exact_mod_cast hle
        push_cast at hc ⊢
        linarith
    rw [hceil, Int.toNat_natCast]

/-- Master computation lemma: the quantized CDF of a histogram is the pure
`ℕ` ceiling-division formula over cumulative counts.  This holds with no
hypotheses (an all-zero histogram gives `0/0 = 0` on both sides). -/
lemma equalize_cdf_histN (c : List ℕ) (n : ℕ) :
    equalize (cdf (histN c n)) =
      (List.range 256).map fun i =>
        (255 * cntLE c n i + cntLE c n 255 - 1) / cntLE c n 255 := by
  unfold equalize
  refine List.map_congr_left ?_
  intro i hi
  have hi' : i < 256 := List.mem_range.mp hi
  rw [cdf_histN_getD c n i hi', ceil_mul_255_toNat]

lemma equalize_cdf_histN_getD (c : List ℕ) (n i : ℕ) (hi : i < 256) :
    (equalize (cdf (histN c n))).getD i 0 =
      (255 * cntLE c n i + cntLE c n 255 - 1) / cntLE c n 255 := by
  rw [equalize_cdf_histN, getD_map_range _ _ _ _ hi]

/-! ### Counting lemmas -/

lemma list_sum_map_range {M : Type} [AddCommMonoid M] (f : ℕ → M) (m : ℕ) :
    ((List.range m).map f).sum = ∑ v ∈ Finset.range m, f v := by
  induction m with
  | zero => simp
  | succ k ih =>
    rw [List.range_succ, List.map_append, List.sum_append, Finset.sum_range_succ, ih]
    simp

lemma filter_singleton_length (p : ℕ → Bool) (a : ℕ) :
    (List.filter p [a]).length = if p a then 1 else 0 := by
  cases hpa : p a with
  | false => simp [List.filter_cons, hpa]
  | true => simp [List.filter_cons, hpa]

lemma cnt_succ (c : List ℕ) (n v : ℕ) :
    cnt c (n + 1) v = cnt c n v + (if c.getD n 0 = v then 1 else 0) := by
  unfold cnt
  rw [List.range_succ, List.filter_append, List.length_append, filter_singleton_length]
  congr 1
  rcases eq_or_ne (c.getD n 0) v with h | h
  · rw [if_pos (by simpa using h), if_pos h]
  · rw [if_neg (by simpa using h), if_neg h]

lemma getD_lt_256 (c : List ℕ) (hc : ∀ x ∈ c, x < 256) (k : ℕ) : c.getD k 0 < 256 := by
  rcases Nat.lt_or_ge k c.length with h | h
  · rw [List.getD_eq_getElem _ _ h]
    exact hc _ (List.getElem_mem h)
  · rw [List.getD_eq_default _ _ h]
    omega

/-- The 256 histogram bins together count every one of the `n` pixels
exactly once (all samples are 8-bit values). -/
lemma cntLE_total (c : List ℕ) (n : ℕ) (hc : ∀ x ∈ c, x < 256) :
    cntLE c n 255 = n := by
  have key : ∀ m : ℕ, (∑ v ∈ Finset.range 256, cnt c m v) = m := by
    intro m
    induction m with
    | zero => simp [cnt]
    | succ k ih =>
      rw [Finset.sum_congr rfl fun v _ => cnt_succ c k v, Finset.sum_add_distrib, ih,
        Finset.sum_ite_eq (Finset.range 256) (c.getD k 0) fun _ => 1,
        if_pos (Finset.mem_range.mpr (getD_lt_256 c hc k))]
  calc cntLE c n 255 = ∑ v ∈ Finset.range 256, cnt c n v := list_sum_map_range _ _
    _ = n := key n

lemma cntLE_mono (c : List ℕ) (n : ℕ) {i j : ℕ} (hij : i ≤ j) :
    cntLE c n i ≤ cntLE c n j := by
  unfold cntLE
  rw [list_sum_map_range, list_sum_map_range]
  exact Finset.sum_le_sum_of_subset (Finset.range_subset.mpr (by omega))

/-! ### BTreeMap insertion lemmas -/

/-- Keys never inserted are not in the finished map. -/
lemma insertAll_not_mem (l : List ℕ) : ∀ (m : ℕ → Option ℕ) (n0 k : ℕ),
    (∀ x ∈ l, x ≠ k) → insertAll m n0 l k = m k := by
  induction l with
  | nil => intro m n0 k _; rfl
  | cons i rest ih =>
    intro m n0 k hk
    simp only [insertAll]
    rw [ih _ _ _ fun x hx => hk x (List.mem_cons_of_mem _ hx)]
    show (if k = i then some n0 else m k) = m k
    rw [if_neg fun h => hk i (List.mem_cons_self i rest) h.symm]

/-- Folding the insertions over the list: a key whose LAST occurrence in
`l` is at position `n` ends up mapped to counter value `n0 + n`. -/
lemma insertAll_spec (l : List ℕ) : ∀ (m : ℕ → Option ℕ) (n0 n : ℕ), n < l.length →
    (∀ j, j < l.length → l.getD j 0 = l.getD n 0 → j ≤ n) →
    insertAll m n0 l (l.getD n 0) = some (n0 + n) := by
  induction l with
  | nil => intro m n0 n h _; simp at h
  | cons i rest ih =>
    intro m n0 n hn hmax
    cases n with
    | zero =>
      have hrest : ∀ x ∈ rest, x ≠ (i :: rest).getD 0 0 := by
        intro x hx hxe
        obtain ⟨j, hj, hget⟩ := List.mem_iff_getElem.mp hx
        have hgd : (i :: rest).getD (j + 1) 0 = (i :: rest).getD 0 0 := by
          rw [List.getD_cons_succ, List.getD_eq_getElem _ _ hj, hget]
          exact hxe
        have := hmax (j + 1) (by simp; omega) hgd
        omega
      simp only [insertAll]
      rw [insertAll_not_mem rest _ _ _ hrest]
      show (if (i :: rest).getD 0 0 = i then some n0 else _) = some (n0 + 0)
      rw [List.getD_cons_zero, if_pos rfl, Nat.add_zero]
    | succ j =>
      have hj : j < rest.length := by simpa using hn
      have hmax' : ∀ k, k < rest.length → rest.getD k 0 = rest.getD j 0 → k ≤ j := by
        intro k hk he
        have := hmax (k + 1) (by simp; omega)
          (by simpa only [List.getD_cons_succ] using he)
        omega
      simp only [insertAll, List.getD_cons_succ]
      rw [ih _ (n0 + 1) j hj hmax']
      congr 1
      omega

/-! ### Orchestration unfolding -/

/-- `match_core` laid out explicitly.  Note the channel mix-up inherited
from the `(r, b, g)` tuple of `ChannelsHistogram`: the GREEN output (second
component) is built from the BLUE histograms of both images, and the BLUE
output from the GREEN histograms; each is still applied to the samples of
its own channel. -/
lemma match_core_eq (src ref : ImageChannels) :
    match_core src ref =
      (Histmatch.apply (mapping (equalize (cdf (histN src.r (src.width * src.height))))
        (equalize (cdf (histN ref.r (ref.width * ref.height))))) src.r,
       Histmatch.apply (mapping (equalize (cdf (histN src.b (src.width * src.height))))
        (equalize (cdf (histN ref.b (ref.width * ref.height))))) src.g,
       Histmatch.apply (mapping (equalize (cdf (histN src.g (src.width * src.height))))
        (equalize (cdf (histN ref.g (ref.width * ref.height))))) src.b) := rfl

/-- `match_histogram` laid out explicitly (same channel mix-up). -/
lemma match_histogram_eq (src ref : ImageChannels) :
    match_histogram src ref =
      combine
        (Histmatch.apply (mapping (equalize (cdf (histN src.r (src.width * src.height))))
          (equalize (cdf (histN ref.r (ref.width * ref.height))))) src.r)
        (Histmatch.apply (mapping (equalize (cdf (histN src.b (src.width * src.height))))
          (equalize (cdf (histN ref.b (ref.width * ref.height))))) src.g)
        (Histmatch.apply (mapping (equalize (cdf (histN src.g (src.width * src.height))))
          (equalize (cdf (histN ref.g (ref.width * ref.height))))) src.b)
        src.height src.width := rfl

/-! ### Literal evaluations of the concrete quantized CDFs -/

lemma q7_eq : q7 = 128 :: List.replicate 255 255 := by
  unfold q7
  rw [equalize_cdf_histN]
  decide

lemma q10_eq : (List.range 256).map (fun i =>
    (255 * cntLE [10] 1 i + cntLE [10] 1 255 - 1) / cntLE [10] 1 255)
    = List.replicate 10 0 ++ List.replicate 246 255 := by decide

lemma q20_eq : (List.range 256).map (fun i =>
    (255 * cntLE [20] 1 i + cntLE [20] 1 255 - 1) / cntLE [20] 1 255)
    = List.replicate 20 0 ++ List.replicate 236 255 := by decide

lemma q77_eq : (List.range 256).map (fun i =>
    (255 * cntLE [77] 1 i + cntLE [77] 1 255 - 1) / cntLE [77] 1 255)
    = List.replicate 77 0 ++ List.replicate 179 255 := by decide

lemma q200_eq : (List.range 256).map (fun i =>
    (255 * cntLE [200] 1 i + cntLE [200] 1 255 - 1) / cntLE [200] 1 255)
    = List.replicate 200 0 ++ List.replicate 56 255 := by decide

lemma srcQ2_eq : (List.range 256).map (fun i =>
    (255 * cntLE [0, 255] 2 i + cntLE [0, 255] 2 255 - 1) / cntLE [0, 255] 2 255)
    = List.replicate 255 128 ++ [255] := by decide

lemma refQ2_eq : (List.range 256).map (fun i =>
    (255 * cntLE [0, 0] 2 i + cntLE [0, 0] 2 255 - 1) / cntLE [0, 0] 2 255)
    = List.replicate 256 255 := by decide

/-! ### Claim theorems -/

/-- Claim C1 (code_bug): the claim says each channel's lookup table is
built from that channel's histograms.  In the code, the GREEN output of
`match_core` is always built from the BLUE histograms of both images
(first conjunct, a consequence of storing the histogram tuple as
`(r, b, g)` but reading it as `(r, g, b)`).  At the 1×1 images `srcA`
(pixel (0,10,20)) and `refA` (pixel (0,77,200)) this yields green output
`[199]` (= 200 − 1, blue statistics), whereas the table built from the
green histograms yields `[255]`. -/
theorem c1_green_channel_uses_blue_statistics :
    (∀ src ref : ImageChannels, (match_core src ref).2.1 =
      Histmatch.apply (mapping (equalize (cdf (histN src.b (src.width * src.height))))
        (equalize (cdf (histN ref.b (ref.width * ref.height))))) src.g) ∧
    (match_core srcA refA).2.1 = [199] ∧
    Histmatch.apply (mapping (equalize (cdf (histN srcA.g (srcA.width * srcA.height))))
      (equalize (cdf (histN refA.g (refA.width * refA.height))))) srcA.g = [255] := by
  refine ⟨fun src ref => by rw [match_core_eq], ?_, ?_⟩
  · rw [match_core_eq]
    simp only [srcA, refA]
    simp only [equalize_cdf_histN]
    rw [q20_eq, q200_eq]
    decide
  · simp only [srcA, refA]
    simp only [equalize_cdf_histN]
    rw [q10_eq, q77_eq]
    decide

/-- Claim C2, counterexample: matching the 2×1 source [(0,0,0),(255,255,255)]
against the 2×1 all-black reference does NOT produce [(0,0,0),(0,0,0)]. -/
theorem c2_counterexample :
    match_histogram src2 ref2 ≠ [(0, 0, 0), (0, 0, 0)] := by
  rw [match_histogram_eq]
  simp only [src2, ref2]
  simp only [equalize_cdf_histN]
  rw [srcQ2_eq, refQ2_eq]
  decide

/-- Claim C2 (corrected): the reference's degenerate all-zero distribution
quantizes to the constant CDF 255, whose map sends key 255 to index 255
(last index wins), so BOTH source values map to 255 in every channel and
the output is [(255,255,255),(255,255,255)]. -/
theorem c2_amended_output :
    match_histogram src2 ref2 = [(255, 255, 255), (255, 255, 255)] := by
  rw [match_histogram_eq]
  simp only [src2, ref2]
  simp only [equalize_cdf_histN]
  rw [srcQ2_eq, refQ2_eq]
  decide

/-- Claim C3 (code_bug): at `src3 = [150, …]`, `ref3 = [100, 200, 255, …]`,
the upper bound is key 200 (index 1) and the lower bound key 100 (index 0);
the key distances are 50 and 50, so the claimed rule (prefer upper on ties)
selects index 1 — but the code compares the INDICES 1 and 0 against the key
with wrapping subtraction and yields index 0, the lower bound. -/
theorem c3_selection_compares_indices_not_keys :
    src3.getD 0 0 = 150 ∧
    rangeFromNext ref3 150 = some (200, 1) ∧
    rangeToLast ref3 150 = some (100, 0) ∧
    200 - 150 ≤ 150 - 100 ∧
    (mapping src3 ref3).getD 0 0 = 0 ∧
    (0 : ℕ) ≠ 1 := by decide

/-- Claim C4 (code_bug): at the genuine quantized CDF `q7` (self-match of
the 2×1 image with samples [0,1]) and source value 0, `key = 128` but the
upper candidate is the index 0, so the code's `upper - key` subtraction has
its subtrahend exceed its minuend and wraps to `2^32 - 128`. -/
theorem c4_unsigned_subtraction_underflows :
    q7.getD 0 0 = 128 ∧
    upperCandidate q7 128 = 0 ∧
    upperCandidate q7 128 < q7.getD 0 0 ∧
    u32sub (upperCandidate q7 128) (q7.getD 0 0) = 4294967168 := by
  rw [q7_eq]
  decide

/-- Claim C5, counterexample: on `ref5 = [0, 1, 1, …, 1]` and `key = 2`
no reference-map key `≥ 2` exists and the map sends key 0 to index 0, yet
the code's upper candidate defaults to 255 (the `.1` of the dummy pair
`(&0, &255)`), not to the index mapped to key 0. -/
theorem c5_counterexample :
    rangeFromNext ref5 2 = none ∧
    lookupMap ref5 0 = some 0 ∧
    upperCandidate ref5 2 = 255 ∧
    (255 : ℕ) ≠ 0 := by decide

/-- Claim C5 (corrected): when no reference-map key `≥ key` exists the
upper candidate defaults to index 255, and when no key `< key` exists the
lower candidate defaults to index 255 — both fallbacks come from the same
dummy entry `(&0, &255)` whose VALUE 255 is taken. -/
theorem c5_both_defaults_are_255 (ref : List ℕ) (key : ℕ) :
    (rangeFromNext ref key = none → upperCandidate ref key = 255) ∧
    (rangeToLast ref key = none → lowerCandidate ref key = 255) := by
  constructor
  · intro h
    unfold upperCandidate
    rw [h]
    rfl
  · intro h
    unfold lowerCandidate
    rw [h]
    rfl

/-- Witness for C5's amended theorem: on the empty reference array both
range queries are `none`, and both candidates evaluate to 255. -/
theorem c5_both_defaults_are_255_witness :
    (rangeFromNext ([] : List ℕ) 0 = none ∧ rangeToLast ([] : List ℕ) 0 = none) ∧
    upperCandidate [] 0 = 255 ∧ lowerCandidate [] 0 = 255 :=
  ⟨⟨by decide, by decide⟩,
   (c5_both_defaults_are_255 [] 0).1 (by decide),
   (c5_both_defaults_are_255 [] 0).2 (by decide)⟩

lemma histN_nil : histN [] 0 = List.replicate 256 0 := by decide

lemma cumGo_zero_replicate (k : ℕ) :
    cumGo 0 (List.replicate k (0 : ℚ)) = List.replicate k 0 := by
  induction k with
  | zero => rfl
  | succ m ih => simp [List.replicate_succ, cumGo, ih]

lemma cumwantsome_replicate_zero :
    cumwantsome (List.replicate 256 (0 : ℚ)) = List.replicate 256 0 := by
  show cumwantsome ((0 : ℚ) :: List.replicate 255 0) = List.replicate 256 0
  show (0 : ℚ) :: cumGo 0 (List.replicate 255 0) = List.replicate 256 0
  rw [cumGo_zero_replicate]
  rfl

/-- Claim C6 (code_bug): on the histogram of a zero-pixel image, `cdf`
performs no emptiness check and returns a full 256-entry vector computed
by dividing by the total count 0 — every entry is `0/0` (`NaN` in `f32`,
`0` in this `ℚ` model).  No `EmptyImage` error exists anywhere in the
code; `cdf`'s type is a total function. -/
theorem c6_empty_image_returns_normally :
    cdf (histN [] 0) = List.replicate 256 0 ∧ (cdf (histN [] 0)).length = 256 := by
  constructor
  · rw [histN_nil]
    simp only [cdf]
    rw [cumwantsome_replicate_zero, List.map_replicate, zero_div]
  · rw [cdf_length, histN_length]

/-- Claim C7 (code_bug): matching the 2×1 image with samples [0,1] against
itself, the quantized CDF `q7` has `q7[0] = 128 < q7[1] = 255` (strictly
monotonic at 0), yet the self-match table sends 0 to 255, whose quantized
cumulative frequency 255 differs from 128: the wrapping index-versus-key
comparison discards the exact upper bound (key 128, index 0). -/
theorem c7_self_match_not_cumfreq_preserving :
    q7.getD 0 0 = 128 ∧
    q7.getD 0 0 < q7.getD 1 0 ∧
    (mapping q7 q7).getD 0 0 = 255 ∧
    q7.getD ((mapping q7 q7).getD 0 0) 0 ≠ q7.getD 0 0 ∧
    (mapping q7 q7).getD 0 0 ≠ 0 := by
  rw [q7_eq]
  decide

/-- Claim C8 (confirmed): for the histogram of any non-empty image (all
samples 8-bit), the normalized CDF is non-decreasing with last entry
exactly 1, and the quantized CDF produced by `equalize` is
non-decreasing. -/
theorem c8_cdf_monotone (c : List ℕ) (n : ℕ) (hn : 0 < n) (hc : ∀ x ∈ c, x < 256) :
    (∀ i j, i ≤ j → j < 256 →
      (cdf (histN c n)).getD i 0 ≤ (cdf (histN c n)).getD j 0) ∧
    (cdf (histN c n)).getD 255 0 = 1 ∧
    (∀ i j, i ≤ j → j < 256 →
      (equalize (cdf (histN c n))).getD i 0 ≤ (equalize (cdf (histN c n))).getD j 0) := by
  have htot : cntLE c n 255 = n := cntLE_total c n hc
  have hN : 0 < cntLE c n 255 := by omega
  have hNq : (0 : ℚ) < (cntLE c n 255 : ℚ) := by exact_mod_cast hN
  refine ⟨?_, ?_, ?_⟩
  · intro i j hij hj
    rw [cdf_histN_getD c n i (by omega), cdf_histN_getD c n j hj]
    have hS : (cntLE c n i : ℚ) ≤ (cntLE c n j : ℚ) := by
      exact_mod_cast cntLE_mono c n hij
    exact (div_le_div_iff_of_pos_right hNq).mpr hS
  · rw [cdf_histN_getD c n 255 (by omega)]
    exact div_self (ne_of_gt hNq)
  · intro i j hij hj
    rw [equalize_cdf_histN_getD c n i (by omega), equalize_cdf_histN_getD c n j hj]
    have hS := cntLE_mono c n hij
    exact Nat.div_le_div_right (by omega)

/-- Witness for C8 at the 2×1 channel [0, 1]. -/
theorem c8_cdf_monotone_witness :
    ((0 : ℕ) < 2 ∧ ∀ x ∈ ([0, 1] : List ℕ), x < 256) ∧
    ((∀ i j, i ≤ j → j < 256 →
      (cdf (histN [0, 1] 2)).getD i 0 ≤ (cdf (histN [0, 1] 2)).getD j 0) ∧
    (cdf (histN [0, 1] 2)).getD 255 0 = 1 ∧
    (∀ i j, i ≤ j → j < 256 →
      (equalize (cdf (histN [0, 1] 2))).getD i 0 ≤
        (equalize (cdf (histN [0, 1] 2))).getD j 0)) :=
  ⟨⟨by decide, by decide⟩, c8_cdf_monotone [0, 1] 2 (by decide) (by decide)⟩

/-- Claim C9 (confirmed): for any non-empty image the quantized CDF's 256
entries all lie in [0, 255] (they are `ℕ`, so only the upper bound is
substantive) and the last entry is exactly 255. -/
theorem c9_quantized_bounds (c : List ℕ) (n : ℕ) (hn : 0 < n) (hc : ∀ x ∈ c, x < 256) :
    (∀ i, i < 256 → (equalize (cdf (histN c n))).getD i 0 ≤ 255) ∧
    (equalize (cdf (histN c n))).getD 255 0 = 255 := by
  have htot : cntLE c n 255 = n := cntLE_total c n hc
  have hN : 0 < cntLE c n 255 := by omega
  constructor
  · intro i hi
    rw [equalize_cdf_histN_getD c n i hi]
    have hS : cntLE c n i ≤ cntLE c n 255 := cntLE_mono c n (by omega)
    have h1 : 255 * cntLE c n i ≤ 255 * cntLE c n 255 := Nat.mul_le_mul_left _ hS
    have h2 : (255 * cntLE c n i + cntLE c n 255 - 1) / cntLE c n 255 < 256 :=
      (Nat.div_lt_iff_lt_mul hN).mpr (by omega)
    omega
  · rw [equalize_cdf_histN_getD c n 255 (by omega)]
    exact Nat.div_eq_of_lt_le (by omega) (by omega)

/-- Witness for C9 at the 1×1 channel [7]. -/
theorem c9_quantized_bounds_witness :
    ((0 : ℕ) < 1 ∧ ∀ x ∈ ([7] : List ℕ), x < 256) ∧
    ((∀ i, i < 256 → (equalize (cdf (histN [7] 1))).getD i 0 ≤ 255) ∧
    (equalize (cdf (histN [7] 1))).getD 255 0 = 255) :=
  ⟨⟨by decide, by decide⟩, c9_quantized_bounds [7] 1 (by decide) (by decide)⟩

/-- Claim C10 (confirmed): when the reference's quantized-CDF value at
position `n` is attained nowhere after `n`, the finished `BTreeMap` maps
that value to `n` — later insertions overwrite earlier ones, so the last
index attaining a value wins. -/
theorem c10_last_index_wins (ref : List ℕ) (n : ℕ) (hn : n < ref.length)
    (hmax : ∀ m, m < ref.length → ref.getD m 0 = ref.getD n 0 → m ≤ n) :
    lookupMap ref (ref.getD n 0) = some n := by
  have h := insertAll_spec ref (fun _ => none) 0 n hn hmax
  rw [Nat.zero_add] at h
  exact h

/-- Witness for C10: in [5, 5, 7] the value 5 is attained at indices 0 and
1, and the map sends 5 to the larger index 1. -/
theorem c10_last_index_wins_witness :
    (1 < ([5, 5, 7] : List ℕ).length ∧
      ∀ m, m < ([5, 5, 7] : List ℕ).length →
        ([5, 5, 7] : List ℕ).getD m 0 = ([5, 5, 7] : List ℕ).getD 1 0 → m ≤ 1) ∧
    lookupMap [5, 5, 7] 5 = some 1 :=
  ⟨⟨by decide, by decide⟩, c10_last_index_wins [5, 5, 7] 1 (by decide) (by decide)⟩

end Histmatch
